import Mathlib

/-!
Verification of the cto-af/utils library (src/index.ts): a shallow embedding
of its functions (isErrno, errCode, isCI, nameSet, assertDisjoint, select)
as Lean definitions, followed by theorems settling the specification claims.

JavaScript objects are modelled as association lists from string keys to
values, preserving insertion order; JavaScript primitive values that the
code compares are modelled by the JSPrim type; machine exceptions are
modelled with Except.
-/

namespace CtoafUtils

/-- Decidable equality on Except, so that concrete runs of the embedded
functions can be checked by decide. -/
instance instDecEqExcept {e a : Type} [DecidableEq e] [DecidableEq a] :
    DecidableEq (Except e a) := fun x y =>
  match x, y with
  | Except.ok u, Except.ok v =>
    if h : u = v then isTrue (by rw [h]) else isFalse (by simp [h])
  | Except.error u, Except.error v =>
    if h : u = v then isTrue (by rw [h]) else isFalse (by simp [h])
  | Except.ok _, Except.error _ => isFalse (by simp)
  | Except.error _, Except.ok _ => isFalse (by simp)

/-- Association-list lookup: the value bound to key k, if any. Models
reading a JavaScript own property from an object with distinct keys. -/
def lookupV {V : Type} : List (String × V) → String → Option V
| [], _ => none
| p :: rest, k => if p.1 = k then some p.2 else lookupV rest k

/-- Does the association list bind key k? -/
def hasKey {V : Type} : List (String × V) → String → Bool
| [], _ => false
| p :: rest, k => if p.1 = k then true else hasKey rest k

/-- Model of a JavaScript property write o[k] = v: overwrite in place when
the key exists (keeping insertion order), otherwise append at the end. -/
def objSet {V : Type} (o : List (String × V)) (k : String) (v : V) :
    List (String × V) :=
  if hasKey o k then o.map (fun p => if p.1 = k then (k, v) else p)
  else o ++ [(k, v)]

@[simp] theorem lookupV_nil {V : Type} (k : String) :
    lookupV ([] : List (String × V)) k = none := rfl

@[simp] theorem lookupV_cons {V : Type} (p : String × V)
    (rest : List (String × V)) (k : String) :
    lookupV (p :: rest) k = if p.1 = k then some p.2 else lookupV rest k := rfl

@[simp] theorem hasKey_nil {V : Type} (k : String) :
    hasKey ([] : List (String × V)) k = false := rfl

@[simp] theorem hasKey_cons {V : Type} (p : String × V)
    (rest : List (String × V)) (k : String) :
    hasKey (p :: rest) k = if p.1 = k then true else hasKey rest k := rfl

theorem lookupV_append {V : Type} (l1 l2 : List (String × V)) (k : String) :
    lookupV (l1 ++ l2) k =
      match lookupV l1 k with
      | some v => some v
      | none => lookupV l2 k := by
  induction l1 with
  | nil => simp
  | cons p t ih =>
    by_cases h : p.1 = k <;> simp [h, ih]

theorem lookupV_eq_none_of_hasKey {V : Type} (o : List (String × V))
    (k : String) (h : hasKey o k = false) : lookupV o k = none := by
  induction o with
  | nil => simp
  | cons p t ih =>
    by_cases hp : p.1 = k
    · simp [hp] at h
    · simp only [hasKey_cons, hp, if_neg, if_false] at h
      simp [hp, ih h]

theorem lookupV_map_overwrite_self {V : Type} (o : List (String × V))
    (k : String) (v : V) (h : hasKey o k = true) :
    lookupV (o.map (fun p => if p.1 = k then (k, v) else p)) k = some v := by
  induction o with
  | nil => simp at h
  | cons p t ih =>
    by_cases hp : p.1 = k
    · simp [hp]
    · simp only [hasKey_cons, hp, if_neg, if_false] at h
      simp [hp, ih h]

theorem lookupV_map_overwrite_ne {V : Type} (o : List (String × V))
    (k q : String) (v : V) (h : q ≠ k) :
    lookupV (o.map (fun p => if p.1 = k then (k, v) else p)) q =
      lookupV o q := by
  induction o with
  | nil => simp
  | cons p t ih =>
    have hkq : ¬ k = q := fun hh => h hh.symm
    by_cases hp : p.1 = k
    · have hpq : ¬ p.1 = q := by
        rw [hp]
        exact hkq
      have hd : (if p.1 = k then (k, v) else p) = (k, v) := if_pos hp
      rw [List.map_cons, hd]
      simp [hkq, hpq, ih]
    · have hd : (if p.1 = k then (k, v) else p) = p := if_neg hp
      rw [List.map_cons, hd, lookupV_cons, lookupV_cons, ih]

theorem lookupV_objSet_self {V : Type} (o : List (String × V)) (k : String)
    (v : V) : lookupV (objSet o k v) k = some v := by
  unfold objSet
  by_cases h : hasKey o k
  · rw [if_pos h]
    exact lookupV_map_overwrite_self o k v h
  · rw [if_neg h]
    rw [lookupV_append]
    have hn : hasKey o k = false := by
      revert h
      cases hasKey o k <;> simp
    simp [lookupV_eq_none_of_hasKey o k hn]

theorem lookupV_objSet_ne {V : Type} (o : List (String × V)) (k q : String)
    (v : V) (h : q ≠ k) : lookupV (objSet o k v) q = lookupV o q := by
  unfold objSet
  by_cases hk : hasKey o k
  · rw [if_pos hk]
    exact lookupV_map_overwrite_ne o k q v h
  · rw [if_neg hk]
    rw [lookupV_append]
    cases hl : lookupV o q with
    | some w => simp
    | none => simp [Ne.symm h]

/-- Membership of a string in a list of strings, as the JavaScript Set
has and Array includes tests. -/
def hasStr : List String → String → Bool
| [], _ => false
| s :: rest, k => if s = k then true else hasStr rest k

@[simp] theorem hasStr_nil (k : String) : hasStr [] k = false := rfl

@[simp] theorem hasStr_cons (s : String) (rest : List String) (k : String) :
    hasStr (s :: rest) k = if s = k then true else hasStr rest k := rfl

theorem hasStr_iff_mem (l : List String) (k : String) :
    hasStr l k = true ↔ k ∈ l := by
  induction l with
  | nil => simp
  | cons s rest ih =>
    by_cases h : s = k
    · subst h
      simp
    · simp [h, ih, Ne.symm h]

theorem hasStr_false_iff (l : List String) (k : String) :
    hasStr l k = false ↔ k ∉ l := by
  rw [← hasStr_iff_mem]
  cases hasStr l k <;> simp

/-! Model of JavaScript values for the errno functions -/

/-- Primitive JavaScript values compared by the errno helpers. Numeric
values are modelled as integers (the codes in play, such as -2, are
integral). -/
inductive JSPrim : Type
| str (s : String)
| num (n : Int)
| bool (b : Bool)
| nul
| undef
deriving DecidableEq, Repr

/-- A JavaScript object: whether it is an Error instance, its own
properties, and the properties reachable through its prototype chain. -/
structure JSObject : Type where
  isError : Bool
  ownProps : List (String × JSPrim)
  protoProps : List (String × JSPrim)
deriving DecidableEq, Repr

/-- A JavaScript value is an object or a primitive. -/
inductive JSValue : Type
| obj (o : JSObject)
| prim (p : JSPrim)
deriving DecidableEq, Repr

/-- Property read e.k: an own property wins, otherwise the prototype
chain is consulted, otherwise the result is undefined. -/
def getProp (o : JSObject) (k : String) : JSPrim :=
  match lookupV o.ownProps k with
  | some v => v
  | none =>
    match lookupV o.protoProps k with
    | some v => v
    | none => JSPrim.undef

/-- Property read on a value; primitives have no properties here (all
reads are guarded by isErrno in the code under verification). -/
def getPropV (e : JSValue) (k : String) : JSPrim :=
  match e with
  | JSValue.obj o => getProp o k
  | JSValue.prim _ => JSPrim.undef

/-- JavaScript strict equality on the modelled primitives. -/
def strictEq : JSPrim → JSPrim → Bool
| JSPrim.str a, JSPrim.str b => a = b
| JSPrim.num a, JSPrim.num b => a = b
| JSPrim.bool a, JSPrim.bool b => a = b
| JSPrim.nul, JSPrim.nul => true
| JSPrim.undef, JSPrim.undef => true
| _, _ => false

/-- Rendering of the primitives that can reach the template string in the
throw branch of errCode (JSON.stringify for null and booleans; undefined
interpolates as the word undefined). -/
def stringifyPrim : JSPrim → String
| JSPrim.str s => "\"" ++ s ++ "\""
| JSPrim.num n => toString n
| JSPrim.bool b => if b then "true" else "false"
| JSPrim.nul => "null"
| JSPrim.undef => "undefined"

/-- isErrno from src/index.ts: e instanceof Error AND
Object.prototype.hasOwnProperty.call(e, "code"). -/
def isErrno (e : JSValue) : Bool :=
  match e with
  | JSValue.obj o => o.isError && hasKey o.ownProps "code"
  | JSValue.prim _ => false

/-- errCode from src/index.ts: false for non-errno values; for a string
code compare e.code, for a numeric code compare e.errno, otherwise throw
a TypeError naming the offending value. -/
def errCode (e : JSValue) (code : JSPrim) : Except String Bool :=
  if isErrno e then
    match code with
    | JSPrim.str _ => Except.ok (strictEq (getPropV e "code") code)
    | JSPrim.num _ => Except.ok (strictEq (getPropV e "errno") code)
    | _ => Except.error ("Invalid code: " ++ stringifyPrim code)
  else Except.ok false

/-! Model of isCI -/

/-- Boolean coercion of a JavaScript primitive, as applied by the code
in the override branch of isCI. -/
def jsToBool : JSPrim → Bool
| JSPrim.str s => s ≠ ""
| JSPrim.num n => n ≠ 0
| JSPrim.bool b => b
| JSPrim.nul => false
| JSPrim.undef => false

/-- The opts argument of isCI: whether the key CI is present (the
JavaScript in operator), and the value bound to it when present. -/
structure CiOpts : Type where
  ciPresent : Bool
  ciValue : JSPrim
deriving DecidableEq, Repr

/-- Truthiness of an environment variable: set and non-empty. The
environment is the list of set variables with their string values. -/
def envTruthy (env : List (String × String)) (k : String) : Bool :=
  match lookupV env k with
  | some s => s ≠ ""
  | none => false

/-- isCI from src/index.ts: when opts is supplied and has the key CI, the
boolean coercion of that value wins; otherwise the OR of the truthiness
of the four environment variables. -/
def isCI (opts : Option CiOpts) (env : List (String × String)) : Bool :=
  match opts with
  | some o =>
    if o.ciPresent then jsToBool o.ciValue
    else
      envTruthy env "CI" || envTruthy env "CONTINUOUS_INTEGRATION" ||
      envTruthy env "BUILD_NUMBER" || envTruthy env "RUN_ID"
  | none =>
    envTruthy env "CI" || envTruthy env "CONTINUOUS_INTEGRATION" ||
    envTruthy env "BUILD_NUMBER" || envTruthy env "RUN_ID"

/-! Model of assertDisjoint -/

/-- A collection argument of assertDisjoint: an array of strings, a Set
of strings, a non-null object (its own keys are iterated), or any other
value (null, a string, a number), which is invalid. -/
inductive JSCollection (V : Type) : Type
| arr (elems : List String)
| set (elems : List String)
| obj (pairs : List (String × V))
| invalid (desc : String)
deriving DecidableEq, Repr

/-- Outcome of a failed assertDisjoint call: the generic Invalid set
error for a malformed argument, or the node assertion failure, recorded
together with the key being processed when the assertion fired. -/
inductive DisjointOutcome : Type
| invalidSet
| assertionFailed (key : String)
deriving DecidableEq, Repr

/-- The key sequence a collection is iterated as, or none when the
collection is malformed. -/
def collKeys {V : Type} : JSCollection V → Option (List String)
| JSCollection.arr xs => some xs
| JSCollection.set xs => some xs
| JSCollection.obj ps => some (ps.map Prod.fst)
| JSCollection.invalid _ => none

/-- The inner loop of assertDisjoint: walk the keys of one collection,
failing at the first key already seen, and return the grown seen set. -/
def addKeys (seen : List String) :
    List String → Except DisjointOutcome (List String)
| [] => Except.ok seen
| k :: rest =>
  if hasStr seen k then Except.error (DisjointOutcome.assertionFailed k)
  else addKeys (k :: seen) rest

/-- The outer loop of assertDisjoint over the remaining collections. -/
def assertDisjointAux {V : Type} (seen : List String) :
    List (JSCollection V) → Except DisjointOutcome Unit
| [] => Except.ok ()
| c :: rest =>
  match collKeys c with
  | none => Except.error DisjointOutcome.invalidSet
  | some ks =>
    match addKeys seen ks with
    | Except.error e => Except.error e
    | Except.ok seen2 => assertDisjointAux seen2 rest

/-- assertDisjoint from src/index.ts. -/
def assertDisjoint {V : Type} (cs : List (JSCollection V)) :
    Except DisjointOutcome Unit :=
  assertDisjointAux [] cs

/-- The concatenation of the key sequences of the collections, in
argument order, each in its own iteration order. -/
def flatKeys {V : Type} : List (JSCollection V) → List String
| [] => []
| c :: rest => (collKeys c).getD [] ++ flatKeys rest

/-! Model of select -/

/-- A selector argument of select: a Set of keys, an array of keys, a
plain defaults object, or any other value (null, a string, a number),
which is invalid; desc is the string the value interpolates as in the
thrown message. -/
inductive JSSelector (V : Type) : Type
| arr (keys : List String)
| set (keys : List String)
| obj (pairs : List (String × V))
| invalid (desc : String)
deriving DecidableEq, Repr

/-- The key set a selector normalizes to (membership is what select
consults); empty for an invalid selector, which never gets that far. -/
def keysOf {V : Type} : JSSelector V → List String
| JSSelector.arr ks => ks
| JSSelector.set ks => ks
| JSSelector.obj ps => ps.map Prod.fst
| JSSelector.invalid _ => []

/-- The initial contents of the output bucket of a selector: a shallow
copy of a defaults object, empty otherwise. -/
def seedOf {V : Type} : JSSelector V → List (String × V)
| JSSelector.obj ps => ps
| _ => []

/-- The validation pass of select: the map over the selector arguments
throws at the first invalid selector, before the source is consulted. -/
def checkSels {V : Type} : List (JSSelector V) → Except String Unit
| [] => Except.ok ()
| JSSelector.invalid d :: _ => Except.error ("Invalid set: " ++ d)
| _ :: rest => checkSels rest

/-- The index of the first key set containing k, shifted as the forEach
with the found flag computes it. -/
def firstMatch (ks : List (List String)) (k : String) : Option Nat :=
  match ks with
  | [] => none
  | s :: rest =>
    if hasStr s k then some 0
    else (firstMatch rest k).map (fun j => j + 1)

/-- The bucket index a source key is written to: the first matching
selector, or the trailing leftovers bucket at index ks.length. -/
def targetIdx (ks : List (List String)) (k : String) : Nat :=
  match firstMatch ks k with
  | some j => j
  | none => ks.length

/-- One iteration of the partitioning loop: write the pair into the
bucket chosen by targetIdx. -/
def assignEntry {V : Type} (ks : List (List String))
    (bs : List (List (String × V))) (kv : String × V) :
    List (List (String × V)) :=
  bs.set (targetIdx ks kv.1) (objSet (bs.getD (targetIdx ks kv.1) []) kv.1 kv.2)

/-- The partitioning loop of select over the entries of the source. -/
def runEntries {V : Type} (ks : List (List String))
    (bs : List (List (String × V))) (pairs : List (String × V)) :
    List (List (String × V)) :=
  pairs.foldl (assignEntry ks) bs

/-- select from src/index.ts: validate and normalize the selectors,
seed the buckets, append the leftovers bucket, and, unless the source is
null or undefined, distribute each source entry to the first matching
bucket. -/
def select {V : Type} (obj : Option (List (String × V)))
    (sels : List (JSSelector V)) :
    Except String (List (List (String × V))) :=
  match checkSels sels with
  | Except.error e => Except.error e
  | Except.ok _ =>
    match obj with
    | none => Except.ok (sels.map seedOf ++ [[]])
    | some pairs =>
      Except.ok (runEntries (sels.map keysOf) (sels.map seedOf ++ [[]]) pairs)

/-! Theorems for the claims about the errno functions -/

/-- Claim C7: isErrno v is true exactly when v is an Error instance
carrying an own property named code; an own code key missing makes it
false whatever the prototype chain holds, and a non-Error object with an
own code property is not errno-like. -/
theorem isErrno_characterization (v : JSValue) :
    (isErrno v = true ↔
      ∃ o, v = JSValue.obj o ∧ o.isError = true ∧
        hasKey o.ownProps "code" = true) ∧
    (∀ o, v = JSValue.obj o → hasKey o.ownProps "code" = false →
      isErrno v = false) ∧
    (∀ o, v = JSValue.obj o → o.isError = false → isErrno v = false) := by
  refine ⟨?_, ?_, ?_⟩
  · cases v with
    | obj o =>
      simp only [isErrno, Bool.and_eq_true]
      constructor
      · intro h
        exact ⟨o, rfl, h.1, h.2⟩
      · rintro ⟨o2, h, h1, h2⟩
        cases h
        exact ⟨h1, h2⟩
    | prim p => simp [isErrno]
  · intro o h hk
    cases h
    simp [isErrno, hk]
  · intro o h hE
    cases h
    simp [isErrno, hE]

/-- Witness for claim C7 at concrete values: an Error with an own code
property is errno-like; an Error whose code is only inherited is not;
a non-Error with an own code property is not. -/
theorem isErrno_characterization_witness :
    isErrno (JSValue.obj
      (JSObject.mk true [("code", JSPrim.str "ENOENT")] [])) = true ∧
    isErrno (JSValue.obj
      (JSObject.mk true [] [("code", JSPrim.str "X")])) = false ∧
    isErrno (JSValue.obj
      (JSObject.mk false [("code", JSPrim.str "X")] [])) = false :=
  ⟨(isErrno_characterization _).1.mpr ⟨_, rfl, rfl, by decide⟩,
   (isErrno_characterization _).2.1 _ rfl (by decide),
   (isErrno_characterization _).2.2 _ rfl rfl⟩

/-- Claim C4: for a non-errno-like e, errCode returns false and never
throws, whatever code is; for an errno-like e it compares e.code against
a string code, compares e.errno against a numeric code, and throws the
TypeError naming the offending value for every other type of code. -/
theorem errCode_spec (e : JSValue) (code : JSPrim) :
    (isErrno e = false → errCode e code = Except.ok false) ∧
    (isErrno e = true →
      (∀ s, code = JSPrim.str s →
        errCode e code = Except.ok (strictEq (getPropV e "code") code)) ∧
      (∀ n, code = JSPrim.num n →
        errCode e code = Except.ok (strictEq (getPropV e "errno") code)) ∧
      ((∀ s, code ≠ JSPrim.str s) → (∀ n, code ≠ JSPrim.num n) →
        errCode e code =
          Except.error ("Invalid code: " ++ stringifyPrim code))) := by
  constructor
  · intro h
    simp [errCode, h]
  · intro h
    refine ⟨?_, ?_, ?_⟩
    · intro s hs
      subst hs
      simp [errCode, h]
    · intro n hn
      subst hn
      simp [errCode, h]
    · intro hs hn
      cases code with
      | str s => exact absurd rfl (hs s)
      | num n => exact absurd rfl (hn n)
      | bool b => simp [errCode, h]
      | nul => simp [errCode, h]
      | undef => simp [errCode, h]

/-- Witness for claim C4 at concrete values: a null value with a string
code gives false; an ENOENT error matches its string code and its
numeric errno through the comparison branches; a null code throws. -/
theorem errCode_spec_witness :
    errCode (JSValue.prim JSPrim.nul) (JSPrim.str "x") = Except.ok false ∧
    errCode (JSValue.obj (JSObject.mk true
        [("code", JSPrim.str "ENOENT"), ("errno", JSPrim.num (-2))] []))
      (JSPrim.str "ENOENT") =
      Except.ok (strictEq (getPropV (JSValue.obj (JSObject.mk true
        [("code", JSPrim.str "ENOENT"), ("errno", JSPrim.num (-2))] []))
        "code") (JSPrim.str "ENOENT")) ∧
    errCode (JSValue.obj (JSObject.mk true
        [("code", JSPrim.str "ENOENT"), ("errno", JSPrim.num (-2))] []))
      (JSPrim.num (-2)) =
      Except.ok (strictEq (getPropV (JSValue.obj (JSObject.mk true
        [("code", JSPrim.str "ENOENT"), ("errno", JSPrim.num (-2))] []))
        "errno") (JSPrim.num (-2))) ∧
    errCode (JSValue.obj (JSObject.mk true
        [("code", JSPrim.str "ENOENT"), ("errno", JSPrim.num (-2))] []))
      JSPrim.nul =
      Except.error ("Invalid code: " ++ stringifyPrim JSPrim.nul) :=
  ⟨(errCode_spec _ _).1 (by rfl),
   ((errCode_spec _ _).2 (by rfl)).1 _ rfl,
   ((errCode_spec _ _).2 (by rfl)).2.1 _ rfl,
   ((errCode_spec _ _).2 (by rfl)).2.2 (fun s h => by cases h)
     (fun n h => by cases h)⟩

/-- Claim C9: an errno-like error with no errno property anywhere (own or
inherited) compares as unequal to every numeric code, so errCode returns
false rather than throwing. -/
theorem errCode_absent_errno (o : JSObject) (hE : o.isError = true)
    (hcode : hasKey o.ownProps "code" = true)
    (h1 : lookupV o.ownProps "errno" = none)
    (h2 : lookupV o.protoProps "errno" = none) (n : Int) :
    errCode (JSValue.obj o) (JSPrim.num n) = Except.ok false := by
  have hErr : isErrno (JSValue.obj o) = true := by
    simp [isErrno, hE, hcode]
  have hget : getPropV (JSValue.obj o) "errno" = JSPrim.undef := by
    simp [getPropV, getProp, h1, h2]
  simp [errCode, hErr, hget, strictEq]

/-- Witness for claim C9: an ENOENT error carrying only a code property
gives false when compared with the number -2. -/
theorem errCode_absent_errno_witness :
    errCode (JSValue.obj
        (JSObject.mk true [("code", JSPrim.str "ENOENT")] []))
      (JSPrim.num (-2)) = Except.ok false :=
  errCode_absent_errno (JSObject.mk true [("code", JSPrim.str "ENOENT")] [])
    rfl (by decide) (by decide) (by decide) (-2)

/-! Theorems for the claims about isCI -/

/-- Claim C8: when opts is supplied with the key CI present, isCI is the
boolean coercion of that value; when opts is absent it is true exactly
when one of the four environment variables is truthy; an opts without
the CI key falls through to the same environment inspection; with all
four variables unset the environment inspection yields false. -/
theorem isCI_spec (opts : Option CiOpts) (env : List (String × String)) :
    (∀ o, opts = some o → o.ciPresent = true →
      isCI opts env = jsToBool o.ciValue) ∧
    (isCI none env = true ↔
      (envTruthy env "CI" = true ∨
       envTruthy env "CONTINUOUS_INTEGRATION" = true ∨
       envTruthy env "BUILD_NUMBER" = true ∨
       envTruthy env "RUN_ID" = true)) ∧
    (∀ o, opts = some o → o.ciPresent = false →
      isCI opts env = isCI none env) ∧
    (lookupV env "CI" = none →
     lookupV env "CONTINUOUS_INTEGRATION" = none →
     lookupV env "BUILD_NUMBER" = none →
     lookupV env "RUN_ID" = none → isCI none env = false) := by
  refine ⟨?_, ?_, ?_, ?_⟩
  · intro o h hp
    subst h
    simp [isCI, hp]
  · simp [isCI, Bool.or_eq_true, or_assoc]
  · intro o h hp
    subst h
    simp [isCI, hp]
  · intro h1 h2 h3 h4
    simp [isCI, envTruthy, h1, h2, h3, h4]

/-- Witness for claim C8 at concrete values: an explicit CI true override
wins over an empty environment; an opts without the CI key defers to the
environment; an empty environment means not CI. -/
theorem isCI_spec_witness :
    isCI (some (CiOpts.mk true (JSPrim.bool true))) [("CI", "1")] =
      jsToBool (JSPrim.bool true) ∧
    isCI (some (CiOpts.mk false JSPrim.undef)) [("CI", "1")] =
      isCI none [("CI", "1")] ∧
    isCI none [] = false :=
  ⟨(isCI_spec (some (CiOpts.mk true (JSPrim.bool true))) [("CI", "1")]).1
      _ rfl rfl,
   (isCI_spec (some (CiOpts.mk false JSPrim.undef)) [("CI", "1")]).2.2.1
      _ rfl rfl,
   (isCI_spec none []).2.2.2 rfl rfl rfl rfl⟩

/-- Claim C10: the override test is key presence, not truthiness: for any
opts with the CI key present, isCI equals the boolean coercion of the
bound value and is independent of the environment, and in particular an
opts binding CI to undefined gives false even when the environment
variable CI is set. -/
theorem isCI_override_hermetic (o : CiOpts) (h : o.ciPresent = true)
    (env1 env2 : List (String × String)) :
    isCI (some o) env1 = isCI (some o) env2 ∧
    isCI (some o) env1 = jsToBool o.ciValue ∧
    isCI (some (CiOpts.mk true JSPrim.undef)) [("CI", "1")] = false := by
  refine ⟨?_, ?_, rfl⟩
  · simp [isCI, h]
  · simp [isCI, h]

/-- Witness for claim C10: CI bound to undefined, with the environment
claiming CI in one run and empty in the other, gives false both times. -/
theorem isCI_override_hermetic_witness :
    isCI (some (CiOpts.mk true JSPrim.undef)) [("CI", "1")] =
      isCI (some (CiOpts.mk true JSPrim.undef)) [] ∧
    isCI (some (CiOpts.mk true JSPrim.undef)) [("CI", "1")] =
      jsToBool JSPrim.undef ∧
    isCI (some (CiOpts.mk true JSPrim.undef)) [("CI", "1")] = false :=
  isCI_override_hermetic (CiOpts.mk true JSPrim.undef) rfl [("CI", "1")] []

/-! Lemmas and theorems for assertDisjoint -/

theorem addKeys_append (l1 l2 : List String) (seen : List String) :
    addKeys seen (l1 ++ l2) =
      match addKeys seen l1 with
      | Except.error e => Except.error e
      | Except.ok s => addKeys s l2 := by
  induction l1 generalizing seen with
  | nil => simp [addKeys]
  | cons k rest ih =>
    by_cases h : hasStr seen k = true
    · simp [addKeys, h]
    · have h2 : hasStr seen k = false := by
        revert h
        cases hasStr seen k <;> simp
      simp [addKeys, h2, ih]

theorem addKeys_ok_of (l : List String) (seen : List String)
    (hnd : l.Nodup) (hdisj : ∀ x ∈ l, x ∉ seen) :
    ∃ s, addKeys seen l = Except.ok s ∧ ∀ x, x ∈ s ↔ (x ∈ seen ∨ x ∈ l) := by
  induction l generalizing seen with
  | nil =>
    refine ⟨seen, rfl, ?_⟩
    simp
  | cons k rest ih =>
    have hk : k ∉ seen := hdisj k (List.mem_cons_self k rest)
    have hks : hasStr seen k = false := (hasStr_false_iff seen k).mpr hk
    have hrest : rest.Nodup := (List.nodup_cons.mp hnd).2
    have hkrest : k ∉ rest := (List.nodup_cons.mp hnd).1
    have hdisj2 : ∀ x ∈ rest, x ∉ (k :: seen) := by
      intro x hx hmem
      rcases List.mem_cons.mp hmem with h | h
      · exact hkrest (h ▸ hx)
      · exact hdisj x (List.mem_cons_of_mem k hx) h
    rcases ih (k :: seen) hrest hdisj2 with ⟨s, hs, hmem⟩
    refine ⟨s, ?_, ?_⟩
    · simp [addKeys, hks, hs]
    · intro x
      rw [hmem x]
      simp [List.mem_cons]
      tauto

theorem addKeys_ok_inv (l : List String) (seen s : List String)
    (h : addKeys seen l = Except.ok s) :
    l.Nodup ∧ ∀ x ∈ l, x ∉ seen := by
  induction l generalizing seen with
  | nil => simp
  | cons k rest ih =>
    by_cases hks : hasStr seen k = true
    · simp [addKeys, hks] at h
    · have hks2 : hasStr seen k = false := by
        revert hks
        cases hasStr seen k <;> simp
      have hk : k ∉ seen := (hasStr_false_iff seen k).mp hks2
      simp only [addKeys, hks2, if_neg, if_false] at h
      rcases ih (k :: seen) h with ⟨hnd, hdisj⟩
      have hkrest : k ∉ rest := by
        intro hmem
        exact hdisj k hmem (List.mem_cons_self k seen)
      refine ⟨List.nodup_cons.mpr ⟨hkrest, hnd⟩, ?_⟩
      intro x hx
      rcases List.mem_cons.mp hx with hh | hh
      · exact hh ▸ hk
      · intro hxs
        exact hdisj x hh (List.mem_cons_of_mem k hxs)

theorem assertDisjointAux_eq (V : Type) (cs : List (JSCollection V))
    (hval : ∀ c ∈ cs, collKeys c ≠ none) (seen : List String) :
    assertDisjointAux seen cs =
      match addKeys seen (flatKeys cs) with
      | Except.error e => Except.error e
      | Except.ok _ => Except.ok () := by
  induction cs generalizing seen with
  | nil => simp [assertDisjointAux, flatKeys, addKeys]
  | cons c rest ih =>
    have hc : collKeys c ≠ none := hval c (List.mem_cons_self c rest)
    rcases hks : collKeys c with _ | ks
    · exact absurd hks hc
    · have hrest : ∀ x ∈ rest, collKeys x ≠ none := by
        intro x hx
        exact hval x (List.mem_cons_of_mem c hx)
      have hflat : flatKeys (c :: rest) = ks ++ flatKeys rest := by
        simp [flatKeys, hks]
      rw [hflat, addKeys_append]
      cases hadd : addKeys seen ks with
      | error e => simp [assertDisjointAux, hks, hadd]
      | ok s => simp [assertDisjointAux, hks, hadd, ih hrest]

/-- Claim C3 counterexample: a single array collection with an internal
duplicate makes assertDisjoint fail although no key appears in more than
one collection (there is only one collection). -/
theorem assertDisjoint_single_array_cex :
    assertDisjoint ([JSCollection.arr ["a", "a"]] : List (JSCollection Nat)) =
      Except.error (DisjointOutcome.assertionFailed "a") ∧
    ([JSCollection.arr ["a", "a"]] : List (JSCollection Nat)).length = 1 := by
  constructor
  · rfl
  · rfl

/-- Claim C3 as amended: over valid collections (arrays, Sets, plain
objects), assertDisjoint succeeds exactly when the concatenation of the
key sequences (collections in argument order, keys in iteration order)
has no repeated key, and it fails with the assertion error at the first
key already seen earlier, whether that earlier sighting was in an
earlier collection or earlier in the same collection. -/
theorem assertDisjoint_spec (V : Type) (cs : List (JSCollection V))
    (hval : ∀ c ∈ cs, collKeys c ≠ none) :
    (assertDisjoint cs = Except.ok () ↔ (flatKeys cs).Nodup) ∧
    (∀ l1 k l2, flatKeys cs = l1 ++ k :: l2 → l1.Nodup → k ∈ l1 →
      assertDisjoint cs = Except.error (DisjointOutcome.assertionFailed k)) := by
  constructor
  · rw [assertDisjoint, assertDisjointAux_eq V cs hval []]
    constructor
    · intro h
      cases hadd : addKeys [] (flatKeys cs) with
      | error e => rw [hadd] at h; cases h
      | ok s => exact (addKeys_ok_inv (flatKeys cs) [] s hadd).1
    · intro hnd
      rcases addKeys_ok_of (flatKeys cs) [] hnd (by simp) with ⟨s, hs, _⟩
      rw [hs]
  · intro l1 k l2 hflat hnd hk
    rw [assertDisjoint, assertDisjointAux_eq V cs hval [], hflat,
      addKeys_append]
    rcases addKeys_ok_of l1 [] hnd (by simp) with ⟨s, hs, hmem⟩
    rw [hs]
    have hkmem : k ∈ s := (hmem k).mpr (Or.inr hk)
    have : hasStr s k = true := (hasStr_iff_mem s k).mpr hkmem
    simp [addKeys, this]

/-- Witness for claim C3: the repo test inputs. assertDisjoint on the
Set a,c and the object with keys b,d succeeds; on the Set a,c and the
array a,b it fails at the shared key a. -/
theorem assertDisjoint_spec_witness :
    assertDisjoint [JSCollection.set ["a", "c"],
      JSCollection.obj [("b", (1 : Nat)), ("d", 2)]] = Except.ok () ∧
    assertDisjoint ([JSCollection.set ["a", "c"],
      JSCollection.arr ["a", "b"]] : List (JSCollection Nat)) =
      Except.error (DisjointOutcome.assertionFailed "a") :=
  ⟨(assertDisjoint_spec Nat
      [JSCollection.set ["a", "c"], JSCollection.obj [("b", 1), ("d", 2)]]
      (by intro c hc; fin_cases hc <;> simp [collKeys])).1.mpr (by decide),
   (assertDisjoint_spec Nat
      [JSCollection.set ["a", "c"], JSCollection.arr ["a", "b"]]
      (by intro c hc; fin_cases hc <;> simp [collKeys])).2
      ["a", "c"] "a" ["b"] rfl (by decide) (by decide)⟩

/-! Lemmas for select -/

theorem getD_set_ne {A : Type} (l : List A) (j i : Nat) (x d : A)
    (h : i ≠ j) : (l.set j x).getD i d = l.getD i d := by
  induction l generalizing i j with
  | nil => simp
  | cons a t ih =>
    cases j with
    | zero =>
      cases i with
      | zero => exact absurd rfl h
      | succ i2 => simp
    | succ j2 =>
      cases i with
      | zero => simp
      | succ i2 =>
        simp only [List.set_cons_succ, List.getD_cons_succ]
        exact ih j2 i2 (fun hh => h (by rw [hh]))

theorem getD_set_self {A : Type} (l : List A) (j : Nat) (x d : A)
    (h : j < l.length) : (l.set j x).getD j d = x := by
  induction l generalizing j with
  | nil => simp at h
  | cons a t ih =>
    cases j with
    | zero => simp
    | succ j2 =>
      simp only [List.set_cons_succ, List.getD_cons_succ]
      exact ih j2 (by simpa using h)

theorem getD_map_keysOf {V : Type} (sels : List (JSSelector V)) (j : Nat) :
    (sels.map keysOf).getD j [] =
      keysOf (sels.getD j (JSSelector.arr [])) := by
  induction sels generalizing j with
  | nil => cases j <;> simp [keysOf]
  | cons s t ih =>
    cases j with
    | zero => rfl
    | succ j2 =>
      rw [List.map_cons, List.getD_cons_succ, List.getD_cons_succ]
      exact ih j2

theorem getD_seed {V : Type} (sels : List (JSSelector V)) (i : Nat) :
    (sels.map seedOf ++ [[]]).getD i [] =
      seedOf (sels.getD i (JSSelector.arr [])) := by
  induction sels generalizing i with
  | nil => cases i <;> rfl
  | cons s t ih =>
    cases i with
    | zero => rfl
    | succ i2 =>
      rw [List.map_cons, List.cons_append, List.getD_cons_succ,
        List.getD_cons_succ]
      exact ih i2

theorem firstMatch_some (ks : List (List String)) (k : String) (j : Nat)
    (h : firstMatch ks k = some j) :
    j < ks.length ∧ hasStr (ks.getD j []) k = true ∧
    ∀ i, i < j → hasStr (ks.getD i []) k = false := by
  induction ks generalizing j with
  | nil => cases h
  | cons s t ih =>
    rw [firstMatch] at h
    by_cases hs : hasStr s k = true
    · rw [if_pos hs] at h
      cases h
      exact ⟨Nat.succ_pos _, hs, fun i hi => absurd hi (Nat.not_lt_zero i)⟩
    · have hs2 : hasStr s k = false := by
        revert hs
        cases hasStr s k <;> simp
      rw [if_neg hs] at h
      rcases Option.map_eq_some'.mp h with ⟨j2, hj2, hj⟩
      subst hj
      rcases ih j2 hj2 with ⟨hlt, hsome, hprev⟩
      refine ⟨Nat.succ_lt_succ hlt, by simpa using hsome, ?_⟩
      intro i hi
      cases i with
      | zero => simpa using hs2
      | succ i2 => simpa using hprev i2 (Nat.lt_of_succ_lt_succ hi)

theorem firstMatch_none (ks : List (List String)) (k : String)
    (h : firstMatch ks k = none) :
    ∀ i, i < ks.length → hasStr (ks.getD i []) k = false := by
  induction ks with
  | nil =>
    intro i hi
    simp at hi
  | cons s t ih =>
    rw [firstMatch] at h
    by_cases hs : hasStr s k = true
    · rw [if_pos hs] at h
      cases h
    · have hs2 : hasStr s k = false := by
        revert hs
        cases hasStr s k <;> simp
      rw [if_neg hs] at h
      have ht : firstMatch t k = none := by
        cases hfm : firstMatch t k with
        | none => rfl
        | some j2 => rw [hfm] at h; cases h
      intro i hi
      cases i with
      | zero => simpa using hs2
      | succ i2 => simpa using ih ht i2 (Nat.lt_of_succ_lt_succ hi)

theorem targetIdx_le (ks : List (List String)) (k : String) :
    targetIdx ks k ≤ ks.length := by
  unfold targetIdx
  cases h : firstMatch ks k with
  | none => exact Nat.le_refl _
  | some j => exact Nat.le_of_lt (firstMatch_some ks k j h).1

theorem length_assignEntry {V : Type} (ks : List (List String))
    (bs : List (List (String × V))) (kv : String × V) :
    (assignEntry ks bs kv).length = bs.length := by
  simp [assignEntry]

theorem runEntries_cons {V : Type} (ks : List (List String))
    (bs : List (List (String × V))) (p : String × V)
    (t : List (String × V)) :
    runEntries ks bs (p :: t) = runEntries ks (assignEntry ks bs p) t := rfl

theorem length_runEntries {V : Type} (ks : List (List String))
    (pairs : List (String × V)) (bs : List (List (String × V))) :
    (runEntries ks bs pairs).length = bs.length := by
  induction pairs generalizing bs with
  | nil => rfl
  | cons p t ih => rw [runEntries_cons, ih, length_assignEntry]

theorem bucket_assignEntry_other {V : Type} (ks : List (List String))
    (bs : List (List (String × V))) (kv : String × V) (i : Nat)
    (h : i ≠ targetIdx ks kv.1) (d : List (String × V)) :
    (assignEntry ks bs kv).getD i d = bs.getD i d := by
  unfold assignEntry
  exact getD_set_ne bs (targetIdx ks kv.1) i _ d h

theorem lookup_assignEntry_self {V : Type} (ks : List (List String))
    (bs : List (List (String × V))) (kv : String × V)
    (hlen : bs.length = ks.length + 1) :
    lookupV ((assignEntry ks bs kv).getD (targetIdx ks kv.1) []) kv.1 =
      some kv.2 := by
  unfold assignEntry
  rw [getD_set_self bs _ _ _
    (by rw [hlen]; exact Nat.lt_succ_of_le (targetIdx_le ks kv.1))]
  exact lookupV_objSet_self _ _ _

theorem lookup_assignEntry_ne {V : Type} (ks : List (List String))
    (bs : List (List (String × V))) (kv : String × V) (q : String)
    (hq : q ≠ kv.1) (hlen : bs.length = ks.length + 1) (i : Nat) :
    lookupV ((assignEntry ks bs kv).getD i []) q =
      lookupV (bs.getD i []) q := by
  by_cases hi : i = targetIdx ks kv.1
  · subst hi
    unfold assignEntry
    rw [getD_set_self bs _ _ _
      (by rw [hlen]; exact Nat.lt_succ_of_le (targetIdx_le ks kv.1))]
    exact lookupV_objSet_ne _ _ _ _ hq
  · rw [bucket_assignEntry_other ks bs kv i hi]

theorem lookup_runEntries_not_mem {V : Type} (ks : List (List String))
    (pairs : List (String × V)) (bs : List (List (String × V)))
    (hlen : bs.length = ks.length + 1) (q : String)
    (hq : q ∉ pairs.map Prod.fst) (i : Nat) :
    lookupV ((runEntries ks bs pairs).getD i []) q =
      lookupV (bs.getD i []) q := by
  revert hlen hq
  induction pairs generalizing bs with
  | nil =>
    intro hlen hq
    rfl
  | cons p t ih =>
    intro hlen hq
    have hq1 : q ≠ p.1 := by
      intro hh
      apply hq
      rw [hh]
      exact List.mem_map_of_mem Prod.fst (List.mem_cons_self p t)
    have hq2 : q ∉ t.map Prod.fst := by
      intro hh
      apply hq
      simp [hh]
    rw [runEntries_cons,
      ih (assignEntry ks bs p) (by rw [length_assignEntry]; exact hlen) hq2]
    exact lookup_assignEntry_ne ks bs p q hq1 hlen i

theorem lookup_runEntries_mem {V : Type} (ks : List (List String))
    (l1 l2 : List (String × V)) (k : String) (v : V)
    (bs : List (List (String × V)))
    (hlen : bs.length = ks.length + 1)
    (h1 : k ∉ l1.map Prod.fst) (h2 : k ∉ l2.map Prod.fst) :
    lookupV ((runEntries ks bs (l1 ++ (k, v) :: l2)).getD
      (targetIdx ks k) []) k = some v ∧
    ∀ i, i ≠ targetIdx ks k →
      lookupV ((runEntries ks bs (l1 ++ (k, v) :: l2)).getD i []) k =
        lookupV (bs.getD i []) k := by
  have hsplit : runEntries ks bs (l1 ++ (k, v) :: l2) =
      runEntries ks (assignEntry ks (runEntries ks bs l1) (k, v)) l2 := by
    rw [runEntries, List.foldl_append]
    rfl
  have hlen1 : (runEntries ks bs l1).length = ks.length + 1 := by
    rw [length_runEntries]
    exact hlen
  have hlen2 : (assignEntry ks (runEntries ks bs l1) (k, v)).length =
      ks.length + 1 := by
    rw [length_assignEntry]
    exact hlen1
  constructor
  · rw [hsplit, lookup_runEntries_not_mem ks l2 _ hlen2 k h2 _]
    exact lookup_assignEntry_self ks _ (k, v) hlen1
  · intro i hi
    rw [hsplit, lookup_runEntries_not_mem ks l2 _ hlen2 k h2 i,
      bucket_assignEntry_other ks _ (k, v) i hi]
    exact lookup_runEntries_not_mem ks l1 bs hlen k h1 i

theorem select_ok_none {V : Type} (sels : List (JSSelector V))
    (res : List (List (String × V)))
    (hres : select none sels = Except.ok res) :
    checkSels sels = Except.ok () ∧ res = sels.map seedOf ++ [[]] := by
  unfold select at hres
  cases hchk : checkSels sels with
  | error e =>
    rw [hchk] at hres
    cases hres
  | ok u =>
    cases u
    rw [hchk] at hres
    cases hres
    exact ⟨rfl, rfl⟩

theorem select_ok_some {V : Type} (pairs : List (String × V))
    (sels : List (JSSelector V)) (res : List (List (String × V)))
    (hres : select (some pairs) sels = Except.ok res) :
    checkSels sels = Except.ok () ∧
    res = runEntries (sels.map keysOf) (sels.map seedOf ++ [[]]) pairs := by
  unfold select at hres
  cases hchk : checkSels sels with
  | error e =>
    rw [hchk] at hres
    cases hres
  | ok u =>
    cases u
    rw [hchk] at hres
    cases hres
    exact ⟨rfl, rfl⟩

theorem lookupV_mem {V : Type} (o : List (String × V)) (k : String) (v : V)
    (h : lookupV o k = some v) : (k, v) ∈ o := by
  induction o with
  | nil => cases h
  | cons p t ih =>
    cases p with
    | mk k2 v2 =>
      by_cases hp : k2 = k
      · subst hp
        simp only [lookupV_cons, if_pos] at h
        cases h
        exact List.mem_cons_self _ _
      · simp only [lookupV_cons, hp, if_neg, if_false] at h
        exact List.mem_cons_of_mem _ (ih h)

theorem not_mem_map_of_lookupV_none {V : Type} (o : List (String × V))
    (k : String) (h : lookupV o k = none) : k ∉ o.map Prod.fst := by
  induction o with
  | nil => simp
  | cons p t ih =>
    by_cases hp : p.1 = k
    · simp [hp] at h
    · simp only [lookupV_cons, hp, if_neg, if_false] at h
      simp only [List.map_cons, List.mem_cons]
      rintro (hh | hh)
      · exact hp hh.symm
      · exact ih h hh

theorem checkSels_error_of_mem {V : Type} (sels : List (JSSelector V))
    (d : String) (hmem : JSSelector.invalid d ∈ sels) :
    ∃ e, JSSelector.invalid e ∈ sels ∧
      checkSels sels = Except.error ("Invalid set: " ++ e) := by
  induction sels with
  | nil => cases hmem
  | cons s t ih =>
    cases s with
    | invalid d2 => exact ⟨d2, List.mem_cons_self _ _, rfl⟩
    | arr ks =>
      rcases List.mem_cons.mp hmem with h | h
      · exact JSSelector.noConfusion h
      · rcases ih h with ⟨e, he, hc⟩
        exact ⟨e, List.mem_cons_of_mem _ he, hc⟩
    | set ks =>
      rcases List.mem_cons.mp hmem with h | h
      · exact JSSelector.noConfusion h
      · rcases ih h with ⟨e, he, hc⟩
        exact ⟨e, List.mem_cons_of_mem _ he, hc⟩
    | obj ps =>
      rcases List.mem_cons.mp hmem with h | h
      · exact JSSelector.noConfusion h
      · rcases ih h with ⟨e, he, hc⟩
        exact ⟨e, List.mem_cons_of_mem _ he, hc⟩

theorem mem_nodup_split {V : Type} (pairs : List (String × V)) (k : String)
    (v : V) (hnd : (pairs.map Prod.fst).Nodup) (hkv : (k, v) ∈ pairs) :
    ∃ l1 l2, pairs = l1 ++ (k, v) :: l2 ∧
      k ∉ l1.map Prod.fst ∧ k ∉ l2.map Prod.fst := by
  rcases List.append_of_mem hkv with ⟨l1, l2, rfl⟩
  rw [List.map_append, List.map_cons] at hnd
  rcases List.nodup_append.mp hnd with ⟨hn1, hn2, hdisj⟩
  refine ⟨l1, l2, rfl, ?_, ?_⟩
  · intro hk
    exact hdisj hk (List.mem_cons_self k (l2.map Prod.fst))
  · exact (List.nodup_cons.mp hn2).1

/-! Theorems for the claims about select -/

/-- Claim C1: each source entry is assigned to exactly one bucket, the
one of the first selector whose key set contains its key, or to the
leftovers bucket when no selector claims it; every other bucket is left
at its seeded binding for that key, so a key claimed by an earlier
selector is never placed in a later bucket; the bucket index computed by
targetIdx is the first selector whose key set contains the key (all
earlier key sets miss it), and equals the leftovers index sels.length
exactly when no key set contains the key. -/
theorem select_first_match (V : Type) (pairs : List (String × V))
    (sels : List (JSSelector V)) (res : List (List (String × V)))
    (hres : select (some pairs) sels = Except.ok res)
    (hnd : (pairs.map Prod.fst).Nodup)
    (k : String) (v : V) (hkv : (k, v) ∈ pairs) :
    lookupV (res.getD (targetIdx (sels.map keysOf) k) []) k = some v ∧
    (∀ i, i ≠ targetIdx (sels.map keysOf) k →
      lookupV (res.getD i []) k =
        lookupV (seedOf (sels.getD i (JSSelector.arr []))) k) ∧
    (∀ j, firstMatch (sels.map keysOf) k = some j →
      targetIdx (sels.map keysOf) k = j ∧
      hasStr (keysOf (sels.getD j (JSSelector.arr []))) k = true ∧
      ∀ i, i < j →
        hasStr (keysOf (sels.getD i (JSSelector.arr []))) k = false) ∧
    (firstMatch (sels.map keysOf) k = none →
      targetIdx (sels.map keysOf) k = sels.length ∧
      ∀ i, i < sels.length →
        hasStr (keysOf (sels.getD i (JSSelector.arr []))) k = false) := by
  rcases select_ok_some pairs sels res hres with ⟨hchk, hres2⟩
  subst hres2
  rcases mem_nodup_split pairs k v hnd hkv with ⟨l1, l2, hsplit, h1, h2⟩
  subst hsplit
  have hlen : (sels.map seedOf ++ [[]]).length =
      (sels.map keysOf).length + 1 := by simp
  have main := lookup_runEntries_mem (sels.map keysOf) l1 l2 k v
    (sels.map seedOf ++ [[]]) hlen h1 h2
  refine ⟨main.1, ?_, ?_, ?_⟩
  · intro i hi
    rw [main.2 i hi, getD_seed]
  · intro j hj
    have hs := firstMatch_some (sels.map keysOf) k j hj
    refine ⟨by simp [targetIdx, hj], ?_, ?_⟩
    · rw [← getD_map_keysOf]
      exact hs.2.1
    · intro i hi
      rw [← getD_map_keysOf]
      exact hs.2.2 i hi
  · intro hn
    have hni := firstMatch_none (sels.map keysOf) k hn
    refine ⟨by simp [targetIdx, hn], ?_⟩
    intro i hi
    rw [← getD_map_keysOf]
    exact hni i (by simpa using hi)

/-- Witness for claim C1: selecting key a out of the source with entries
a=1, b=2 puts a=1 in the first bucket, and leaves the later leftovers
bucket without a binding for a (its seed is empty). -/
theorem select_first_match_witness :
    lookupV (([[("a", (1 : Nat))], [("b", 2)]] :
      List (List (String × Nat))).getD 0 []) "a" = some 1 ∧
    lookupV (([[("a", (1 : Nat))], [("b", 2)]] :
      List (List (String × Nat))).getD 1 []) "a" =
      lookupV (seedOf (([JSSelector.arr ["a"]] :
        List (JSSelector Nat)).getD 1 (JSSelector.arr []))) "a" :=
  ⟨(select_first_match Nat [("a", 1), ("b", 2)] [JSSelector.arr ["a"]]
      [[("a", 1)], [("b", 2)]] (by decide) (by decide) "a" 1 (by decide)).1,
   (select_first_match Nat [("a", 1), ("b", 2)] [JSSelector.arr ["a"]]
      [[("a", 1)], [("b", 2)]] (by decide) (by decide) "a" 1
      (by decide)).2.1 1 (by decide)⟩

/-- Claim C2 counterexample: with source a=1 and the selectors
(the array containing a, then the object with default a=9), the
object selector sits at position 1, the source has key a, yet bucket 1
holds the default value 9 and not the source value 1, because the
earlier selector claimed the key. -/
theorem select_defaults_overwrite_cex :
    select (some [("a", (1 : Nat))])
      [JSSelector.arr ["a"], JSSelector.obj [("a", 9)]] =
      Except.ok [[("a", 1)], [("a", 9)], []] ∧
    lookupV ([("a", (9 : Nat))]) "a" ≠ some 1 := by
  constructor
  · rfl
  · decide

/-- Claim C2 as amended: a plain-object selector at any position seeds
its bucket with its own key/value pairs, and a source value overwrites a
default key only when that selector is the first one claiming the key;
the bucket therefore holds the source value for a default key whose
first match is this selector, and the default value when the source
lacks the key or an earlier selector claimed it. The spec example with
defaults one=2, two=3, four=5 (first position, no competition) follows
and is checked in the witness. -/
theorem select_defaults_bucket (V : Type) (pairs : List (String × V))
    (sels : List (JSSelector V)) (i : Nat) (ps : List (String × V))
    (hsel : sels.getD i (JSSelector.arr []) = JSSelector.obj ps)
    (hnd : (pairs.map Prod.fst).Nodup)
    (res : List (List (String × V)))
    (hres : select (some pairs) sels = Except.ok res)
    (d : String) (w : V) (hd : lookupV ps d = some w) :
    (∀ v, lookupV pairs d = some v →
      lookupV (res.getD i []) d =
        (if targetIdx (sels.map keysOf) d = i then some v else some w)) ∧
    (lookupV pairs d = none → lookupV (res.getD i []) d = some w) := by
  rcases select_ok_some pairs sels res hres with ⟨hchk, hres2⟩
  subst hres2
  have hlen : (sels.map seedOf ++ [[]]).length =
      (sels.map keysOf).length + 1 := by simp
  constructor
  · intro v hl
    have hmem : (d, v) ∈ pairs := lookupV_mem pairs d v hl
    rcases mem_nodup_split pairs d v hnd hmem with ⟨l1, l2, hsplit, h1, h2⟩
    subst hsplit
    have main := lookup_runEntries_mem (sels.map keysOf) l1 l2 d v
      (sels.map seedOf ++ [[]]) hlen h1 h2
    by_cases ht : targetIdx (sels.map keysOf) d = i
    · rw [if_pos ht, ← ht]
      exact main.1
    · rw [if_neg ht, main.2 i (fun hh => ht hh.symm), getD_seed, hsel]
      exact hd
  · intro hl
    have hnm : d ∉ pairs.map Prod.fst :=
      not_mem_map_of_lookupV_none pairs d hl
    rw [lookup_runEntries_not_mem (sels.map keysOf) pairs _ hlen d hnm i,
      getD_seed, hsel]
    exact hd

/-- Witness for claim C2: the spec example. The whole call is evaluated,
and the theorem is applied at the defaults bucket for the key four,
which the source lacks (default 5 retained), and for the key one, which
the source has (source value 1 wins). -/
theorem select_defaults_bucket_witness :
    select (some [("one", (1 : Nat)), ("two", 2)])
      [JSSelector.obj [("one", 2), ("two", 3), ("four", 5)]] =
      Except.ok [[("one", 1), ("two", 2), ("four", 5)], []] ∧
    lookupV (([[("one", (1 : Nat)), ("two", 2), ("four", 5)], []] :
      List (List (String × Nat))).getD 0 []) "four" = some 5 ∧
    lookupV (([[("one", (1 : Nat)), ("two", 2), ("four", 5)], []] :
      List (List (String × Nat))).getD 0 []) "one" = some 1 :=
  ⟨by decide,
   (select_defaults_bucket Nat [("one", 1), ("two", 2)]
      [JSSelector.obj [("one", 2), ("two", 3), ("four", 5)]] 0
      [("one", 2), ("two", 3), ("four", 5)] rfl (by decide)
      [[("one", 1), ("two", 2), ("four", 5)], []] (by decide)
      "four" 5 (by decide)).2 (by decide),
   (select_defaults_bucket Nat [("one", 1), ("two", 2)]
      [JSSelector.obj [("one", 2), ("two", 3), ("four", 5)]] 0
      [("one", 2), ("two", 3), ("four", 5)] rfl (by decide)
      [[("one", 1), ("two", 2), ("four", 5)], []] (by decide)
      "one" 2 (by decide)).1 1 (by decide)⟩

/-- Claim C5: a successful select returns one bucket per selector plus
exactly one trailing leftovers bucket, so sels.length + 1 buckets in
all, at least one even with zero selectors; and a null or undefined
source yields exactly the seeded buckets with an empty leftovers
bucket. -/
theorem select_shape (V : Type) (obj : Option (List (String × V)))
    (sels : List (JSSelector V)) (res : List (List (String × V)))
    (hres : select obj sels = Except.ok res) :
    res.length = sels.length + 1 ∧
    (obj = none → res = sels.map seedOf ++ [[]]) := by
  cases obj with
  | none =>
    rcases select_ok_none sels res hres with ⟨_, h2⟩
    subst h2
    constructor
    · simp
    · intro h
      rfl
  | some pairs =>
    rcases select_ok_some pairs sels res hres with ⟨_, h2⟩
    subst h2
    constructor
    · rw [length_runEntries]
      simp
    · intro h
      cases h

/-- Witness for claim C5: a null source with one defaults selector gives
two buckets, the seeded one and an empty leftovers bucket; a null source
with zero selectors gives the single empty leftovers bucket. -/
theorem select_shape_witness :
    (([[("b", (2 : Nat))], []] : List (List (String × Nat))).length =
      ([JSSelector.obj [("b", (2 : Nat))]] :
        List (JSSelector Nat)).length + 1 ∧
      ((none : Option (List (String × Nat))) = none →
        ([[("b", (2 : Nat))], []] : List (List (String × Nat))) =
          ([JSSelector.obj [("b", (2 : Nat))]] :
            List (JSSelector Nat)).map seedOf ++ [[]])) ∧
    (([[]] : List (List (String × Nat))).length =
      ([] : List (JSSelector Nat)).length + 1) :=
  ⟨select_shape Nat none [JSSelector.obj [("b", 2)]] [[("b", 2)], []]
      (by decide),
   (select_shape Nat none [] [[]] (by decide)).1⟩

/-- Claim C6: whenever some selector argument is invalid (not an array,
not a Set, not a non-null object), select fails, whatever the source,
with the Invalid set error naming one of the invalid selector values; no
result list is produced. -/
theorem select_invalid (V : Type) (obj : Option (List (String × V)))
    (sels : List (JSSelector V)) (d : String)
    (hmem : JSSelector.invalid d ∈ sels) :
    ∃ e, JSSelector.invalid e ∈ sels ∧
      select obj sels = Except.error ("Invalid set: " ++ e) := by
  rcases checkSels_error_of_mem sels d hmem with ⟨e, he, hc⟩
  refine ⟨e, he, ?_⟩
  unfold select
  rw [hc]

/-- Witness for claim C6: a null selector makes select throw the Invalid
set error even with a non-empty source. -/
theorem select_invalid_witness :
    ∃ e, JSSelector.invalid e ∈
      ([JSSelector.invalid "null"] : List (JSSelector Nat)) ∧
      select (some [("a", (1 : Nat))]) [JSSelector.invalid "null"] =
        Except.error ("Invalid set: " ++ e) :=
  select_invalid Nat (some [("a", 1)]) [JSSelector.invalid "null"] "null"
    (List.mem_cons_self _ _)

end CtoafUtils
